import Mathlib

/-!
Shallow embedding of `src/scripts/leaderboard.py` (class `Leaderboard`).

Conventions used throughout:
* Python strings are Lean `String`s; character-level algorithms (`str.split`,
  `str.join`, slicing, `repr`) are embedded over `List Char`.
* Python dicts appearing in the script (metric records, aggregated metrics)
  are association lists in insertion order; `lookupQ` is dict lookup.
* Numeric metric values are modelled as `ℚ` (the script only forms sums,
  means and population variances, which are exact rational operations).
* External collaborators (the LSF scheduler, the mlflow tracking service)
  are parameters: the scheduler's responses and the tracking service's run
  listing are inputs to the embedded functions.
* A raised Python exception is `Except.error` of a `PyError`; the
  constructors are named after the concrete Python exception the script
  raises (`RuntimeError`, `IndexError`, `subprocess.TimeoutExpired`).
-/

namespace Leaderboard

/-- Embedding of Python `s.split(sep)` (single-character separator) over
`List Char`: splitting the empty string gives `[[]]`, consecutive separators
give empty chunks, exactly as in Python. -/
def pySplit (sep : Char) : List Char → List (List Char)
  | [] => [[]]
  | c :: rest =>
    if c = sep then [] :: pySplit sep rest
    else
      match pySplit sep rest with
      | [] => [[c]]
      | t :: ts => (c :: t) :: ts

/-- Embedding of Python `sep.join(chunks)` for a one-character separator. -/
def joinSep (sep : Char) : List (List Char) → List Char
  | [] => []
  | [t] => t
  | t :: t2 :: ts => t ++ (sep :: joinSep sep (t2 :: ts))

/-- Append `x` to the last chunk of a chunk list (helper describing how
`pySplit` behaves on `s ++ [c]` for a non-separator `c`). -/
def appendLast (x : List Char) : List (List Char) → List (List Char)
  | [] => []
  | [t] => [t ++ x]
  | t :: t2 :: ts => t :: appendLast x (t2 :: ts)

/-- Embedding of the base-run-name computation in `Leaderboard.load_metrics`:
`'_'.join(run_name.split('_')[:-2])` (list-of-characters level). -/
def baseRunNameL (s : List Char) : List Char :=
  joinSep '_' (((pySplit '_' s).dropLast).dropLast)

/-- Base run name of a recorded `run_name` parameter, as computed by
`Leaderboard.load_metrics` lines 178-179. -/
def baseRunName (s : String) : String :=
  String.mk (baseRunNameL s.data)

/-- A run's metric dict (`client.get_run(...).data.metrics`): metric name to
numeric value, in insertion order. -/
abbrev MetricRecord : Type := List (String × ℚ)

/-- The `aggregated_metrics` dict built by `Leaderboard.aggregate_metrics`. -/
abbrev AggregatedMetrics : Type := List (String × List ℚ)

/-- The Python exceptions the script can raise in the embedded fragment. -/
inductive PyError where
  | runtimeError (msg : String)
  | indexError
  | timeoutExpired
deriving DecidableEq

instance {ε α : Type} [DecidableEq ε] [DecidableEq α] : DecidableEq (Except ε α) := fun a b =>
  match a, b with
  | Except.ok x, Except.ok y => decidable_of_iff (x = y) (by simp)
  | Except.error x, Except.error y => decidable_of_iff (x = y) (by simp)
  | Except.ok _, Except.error _ => isFalse (by simp)
  | Except.error _, Except.ok _ => isFalse (by simp)

/-- What `load_metrics` reads from one tracked run: its `run_name` parameter
(the script indexes `params['run_name']` directly, so it is assumed present),
its optional `model.name` parameter, and its metric dict. -/
structure RunData where
  runName : String
  modelName : Option String
  metrics : MetricRecord
deriving DecidableEq

/-- Dict lookup on an association list (first matching key wins). -/
def lookupQ {α : Type} (k : String) : List (String × α) → Option α
  | [] => none
  | kv :: rest => if kv.1 = k then some kv.2 else lookupQ k rest

/-- Python truthiness test `not model_name` on the `model_name` accumulator:
`None` and the empty string are falsy. -/
def isFalsyName : Option String → Bool
  | none => true
  | some s => s.isEmpty

/-- Loop body of `Leaderboard.load_metrics`: walk the experiment's runs in
listing order, keep the metric dicts of runs whose base run name equals the
configured run name, and record the first truthy `model.name` (defaulting to
"Unknown") among the kept runs. -/
def loadMetricsGo (cfg : String) :
    List RunData → List MetricRecord → Option String → List MetricRecord × Option String
  | [], ms, mn => (ms, mn)
  | r :: rest, ms, mn =>
    if baseRunName r.runName = cfg then
      loadMetricsGo cfg rest (ms ++ [r.metrics])
        (if isFalsyName mn then some (r.modelName.getD ("Unknown")) else mn)
    else
      loadMetricsGo cfg rest ms mn

/-- Embedding of `Leaderboard.load_metrics` (lines 169-185), with the tracking
service's run listing supplied as the `runs` argument. -/
def load_metrics (cfg : String) (runs : List RunData) : List MetricRecord × Option String :=
  loadMetricsGo cfg runs [] none

/-- Embedding of `aggregated_metrics.get(k, list()).append(v)`: if key `k` is
present its list grows by `v`; otherwise the appended-to fresh list is
discarded and the dict is unchanged. -/
def addValue (agg : AggregatedMetrics) (k : String) (v : ℚ) : AggregatedMetrics :=
  agg.map (fun kv => if kv.1 = k then (kv.1, kv.2 ++ [v]) else kv)

/-- Inner loop of `Leaderboard.aggregate_metrics`: fold one record's items. -/
def procRecord (agg : AggregatedMetrics) (rec0 : MetricRecord) : AggregatedMetrics :=
  rec0.foldl (fun a kv => addValue a kv.1 kv.2) agg

/-- The dict comprehension `{k: [] for k in metrics[0].keys()}`. -/
def initAgg (first : MetricRecord) : AggregatedMetrics :=
  first.map (fun kv => (kv.1, ([] : List ℚ)))

/-- Embedding of `Leaderboard.aggregate_metrics` (lines 187-194); on an empty
record list `metrics[0]` raises `IndexError`. -/
def aggregate_metrics (metrics : List MetricRecord) : Except PyError AggregatedMetrics :=
  match metrics with
  | [] => Except.error PyError.indexError
  | first :: _ => Except.ok (metrics.foldl procRecord (initAgg first))

/-- `np.mean` on a value list, in exact rational arithmetic. -/
def npMean (l : List ℚ) : ℚ := l.sum / (l.length : ℚ)

/-- `np.var` on a value list: population variance (ddof = 0), exact. -/
def npVar (l : List ℚ) : ℚ :=
  ((l.map (fun x => (x - npMean l) ^ 2)).sum) / (l.length : ℚ)

/-- Boolean prefix test on character lists. -/
def isPrefixL : List Char → List Char → Bool
  | [], _ => true
  | _ :: _, [] => false
  | a :: as, b :: rest => a == b && isPrefixL as rest

/-- Boolean substring test on character lists (Python `pat in s`). -/
def containsSub (pat : List Char) : List Char → Bool
  | [] => isPrefixL pat []
  | c :: rest => isPrefixL pat (c :: rest) || containsSub pat rest

/-- The filter `'test' in k` in `Leaderboard.average_metrics`. -/
def containsTest (k : String) : Bool := containsSub (("test").data) k.data

/-- The dict comprehension building `metrics_mean` (line 153). -/
def metrics_mean (agg : AggregatedMetrics) : List (String × ℚ) :=
  agg.filterMap (fun kv =>
    if containsTest kv.1 then some (kv.1 ++ ("_mean"), npMean kv.2) else none)

/-- The dict comprehension building `metrics_var` (line 154). -/
def metrics_var (agg : AggregatedMetrics) : List (String × ℚ) :=
  agg.filterMap (fun kv =>
    if containsTest kv.1 then some (kv.1 ++ ("_var"), npVar kv.2) else none)

/-- Everything `Leaderboard.average_metrics` publishes to the tracking
service for one dataset (run name, logged parameters, mean/var metrics).
The wall-clock `starting_time` parameter is outside the embedding. -/
structure SummaryRecord where
  runName : String
  modelName : Option String
  numRuns : ℕ
  means : List (String × ℚ)
  vars : List (String × ℚ)
deriving DecidableEq

/-- Embedding of `Leaderboard.average_metrics` (lines 147-167): load the run
family, aggregate (which raises on an empty family), compute the "test"
mean/variance dicts, and publish the summary run. An `Except.error` means an
exception was raised before anything was published. -/
def average_metrics (cfg : String) (runs : List RunData) : Except PyError SummaryRecord :=
  let lm := load_metrics cfg runs
  match aggregate_metrics lm.1 with
  | Except.error e => Except.error e
  | Except.ok agg =>
    Except.ok { runName := cfg ++ ("_av"), modelName := lm.2, numRuns := lm.1.length,
                means := metrics_mean agg, vars := metrics_var agg }

/-- Embedding of the polling loop in `Leaderboard.wait_jobs` (lines 111-130).
`A` is `started_jobs_id`, `B i` the active-job set returned by the i-th
`bjobs` query.  The loop is given `fuel` iterations; `some j` means the loop
exited after query `j` found an empty intersection, `none` that it was still
polling when the fuel ran out.  Termination of the unbounded Python loop is
`∃ fuel, (wait_jobs ...).isSome`. -/
def wait_jobs (A : Finset String) (B : ℕ → Finset String) : ℕ → ℕ → Option ℕ
  | 0, _ => none
  | n + 1, i => if A ∩ B i = ∅ then some i else wait_jobs A B n (i + 1)

/-- Embedding of the submission loop in `Leaderboard.submit_bundle`
(lines 59-62): one `submit_job` call per bundle index `0..bundleSize-1`,
accumulating the returned handles into the `started_jobs_id` set.  `handleOf`
gives the scheduler's handle for each submission; the first component records
the bundle indices of the submission calls issued, in order. -/
def submit_bundle (bundleSize : ℕ) (handleOf : ℕ → String) : List ℕ × Finset String :=
  (List.range bundleSize).foldl
    (fun acc b => (acc.1 ++ [b], insert (handleOf b) acc.2))
    (([] : List ℕ), (∅ : Finset String))

/-- The single-quote character (code 39). -/
def sq : Char := Char.ofNat 39

/-- The double-quote character (code 34). -/
def dq : Char := Char.ofNat 34

/-- The backslash character (code 92). -/
def bsl : Char := Char.ofNat 92

/-- Lower-case hex digit. -/
def hexDigit (n : ℕ) : Char := if n < 10 then Char.ofNat (48 + n) else Char.ofNat (87 + n)

/-- How Python's `bytes.__repr__` renders one byte inside quote `q`. -/
def reprByte (q : Char) (c : Char) : List Char :=
  if c = Char.ofNat 9 then [bsl, 't']
  else if c = Char.ofNat 10 then [bsl, 'n']
  else if c = Char.ofNat 13 then [bsl, 'r']
  else if c = bsl then [bsl, bsl]
  else if c = q then [bsl, q]
  else if 32 ≤ c.toNat ∧ c.toNat < 127 then [c]
  else [bsl, 'x', hexDigit ((c.toNat / 16) % 16), hexDigit (c.toNat % 16)]

/-- Embedding of Python `str(outs)` where `outs` is the raw `bytes` object
read from the scheduler (note: `submit_job` does NOT decode the bytes): the
repr `b'...'` (or `b"..."` when the content holds a single quote but no
double quote), with escaping. -/
def strOfBytes (out : List Char) : List Char :=
  if sq ∈ out ∧ dq ∉ out then
    'b' :: (dq :: ((out.flatMap (reprByte dq)) ++ [dq]))
  else
    'b' :: (sq :: ((out.flatMap (reprByte sq)) ++ [sq]))

/-- Embedding of `str(outs).split(' ')[1][1:-1]` in `Leaderboard.submit_job`
(line 81): `IndexError` when the split has no second token, otherwise the
second token with its first and last characters sliced off. -/
def parse_job_id (outs : List Char) : Except PyError (List Char) :=
  match (pySplit ' ' (strOfBytes outs))[1]? with
  | none => Except.error PyError.indexError
  | some t => Except.ok ((t.drop 1).dropLast)

/-- One scheduler submission outcome: either the acknowledgment did not
arrive within the `timeout=4` bound of `p.communicate` (which raises
`subprocess.TimeoutExpired`), or stdout bytes were returned. -/
inductive SchedResponse where
  | timeout
  | stdout (outs : List Char)

/-- Handling of one scheduler response inside `Leaderboard.submit_job`. -/
def submit_response : SchedResponse → Except PyError (List Char)
  | SchedResponse.timeout => Except.error PyError.timeoutExpired
  | SchedResponse.stdout outs => parse_job_id outs

/-- The environment module's dataset root paths (`env.*_PATH`). -/
structure Env where
  discoman_v10_path : String
  kitti_path : String
  tum_path : String

/-- The `if/elif/.../else raise RuntimeError('Unknown dataset_type')` chain at
the top of `Leaderboard.get_lsf_command` (lines 86-97). -/
def get_dataset_root (e : Env) (dt : String) : Except PyError String :=
  if dt = ("discoman_v10") then Except.ok e.discoman_v10_path
  else if dt = ("discoman_debug") then Except.ok e.discoman_v10_path
  else if dt = ("kitti_4/6") then Except.ok e.kitti_path
  else if dt = ("tum") then Except.ok e.tum_path
  else if dt = ("tum_debug") then Except.ok e.tum_path
  else Except.error (PyError.runtimeError (("Unknown dataset_type")))

/-- Python `' '.join(command)`. -/
def joinWith (sep : String) : List String → String
  | [] => ("")
  | [s] => s
  | s :: s2 :: rest => s ++ sep ++ joinWith sep (s2 :: rest)

/-- Embedding of `Leaderboard.get_lsf_command` (lines 84-109): resolve the
dataset root (raising on an unknown `dataset_type`) and assemble the `bsub`
command string.  `home` stands for `Path.home()`; the two adjacent f-strings
on lines 103-104 concatenate into a single list element. -/
def get_lsf_command (e : Env) (home trainerPath : String) (dt run_name : String) :
    Except PyError String :=
  match get_dataset_root e dt with
  | Except.error err => Except.error err
  | Except.ok root =>
    Except.ok (joinWith (" ")
      [("bsub"),
       ("-o ") ++ home ++ ("/lsf/%J"),
       ("-gpu \"num=1:mode=exclusive_process\""),
       ("python"),
       ("-m [airugpub02, airugpua06, airugpua09, airugpua10]") ++ trainerPath,
       ("--dataset_root ") ++ root,
       ("--dataset_type ") ++ dt,
       ("--run_name ") ++ run_name])

/-- Embedding of `Leaderboard.submit_job` (lines 73-82) with an explicit
trace of external calls: the command is built first (an unknown dataset type
raises before anything external happens, so the trace stays empty), then the
scheduler is invoked once with the command and its response parsed. -/
def submit_job_traced (e : Env) (home trainerPath cfgRun : String)
    (respond : String → SchedResponse) (dt : String) (b : ℕ) :
    Except PyError String × List String :=
  match get_lsf_command e home trainerPath dt (cfgRun ++ ("_b_") ++ toString b) with
  | Except.error err => (Except.error err, [])
  | Except.ok cmd => ((submit_response (respond cmd)).map String.mk, [cmd])

/-- Submission phase of `Leaderboard.submit_bundle` with fallible
submissions: a submission failure propagates (it is not caught). -/
def submitAll (n : ℕ) (res : ℕ → Except PyError String) : Except PyError (List String) :=
  (List.range n).foldlM
    (fun acc b =>
      match res b with
      | Except.ok h => Except.ok (acc ++ [h])
      | Except.error e => Except.error e)
    []

/-- The per-dataset inputs a `submit_bundle` pipeline consumes: the bundle
size, the scheduler's per-index submission outcomes, and the tracking
service's run listing seen at aggregation time. -/
structure PipelineInput where
  bundleSize : ℕ
  submitRes : ℕ → Except PyError String
  runs : List RunData

/-- Embedding of one `Leaderboard.submit_bundle` call (lines 52-71):
submission errors propagate, while the `try/except` around
`average_metrics` (lines 68-71) turns any aggregation exception into
"no summary produced" and the call still returns normally. -/
def run_pipeline (cfg : String) (inp : PipelineInput) :
    Except PyError (List String × Option SummaryRecord) :=
  match submitAll inp.bundleSize inp.submitRes with
  | Except.error e => Except.error e
  | Except.ok hs =>
    Except.ok (hs,
      match average_metrics cfg inp.runs with
      | Except.ok s => some s
      | Except.error _ => none)

/-- Embedding of `Leaderboard.submit_on_all_datasets` (lines 43-50): one
independent `submit_bundle` pipeline per dataset, each reading only its own
dataset's inputs (`world d`). -/
def dispatch (cfg : String) (datasets : List String) (world : String → PipelineInput) :
    List (String × Except PyError (List String × Option SummaryRecord)) :=
  datasets.map (fun d => (d, run_pipeline cfg (world d)))

/-- All values a given key holds in one record, in item order (used to state
what `aggregate_metrics` gathers). -/
def recordValues (k : String) (rec0 : MetricRecord) : List ℚ :=
  rec0.filterMap (fun kv => if kv.1 = k then some kv.2 else none)

/-- Concatenation of a key's values across a record list, in record order. -/
def concatValues (k : String) : List MetricRecord → List ℚ
  | [] => []
  | r :: rs => recordValues k r ++ concatValues k rs

/-- A byte that `bytes.__repr__` renders as itself inside single quotes:
printable ASCII other than the quote and the backslash. -/
def PlainChar (c : Char) : Prop := 32 ≤ c.toNat ∧ c.toNat < 127 ∧ c ≠ sq ∧ c ≠ bsl

instance (c : Char) : Decidable (PlainChar c) :=
  decidable_of_iff (32 ≤ c.toNat ∧ c.toNat < 127 ∧ c ≠ sq ∧ c ≠ bsl) Iff.rfl

lemma pySplit_ne_nil (sep : Char) (s : List Char) : pySplit sep s ≠ [] := by
  cases s with
  | nil => simp [pySplit]
  | cons c rest =>
    simp only [pySplit]
    split
    · simp
    · split <;> simp

lemma joinSep_cons_cons (sep : Char) (t u : List Char) (us : List (List Char)) :
    joinSep sep (t :: u :: us) = t ++ (sep :: joinSep sep (u :: us)) := rfl

lemma pySplit_cons_sep (sep : Char) (s : List Char) :
    pySplit sep (sep :: s) = [] :: pySplit sep s := by
  simp [pySplit]

lemma pySplit_cons_ne (sep c : Char) (s : List Char) (hc : c ≠ sep)
    (u : List Char) (us : List (List Char)) (hps : pySplit sep s = u :: us) :
    pySplit sep (c :: s) = (c :: u) :: us := by
  simp [pySplit, hc, hps]

lemma joinSep_pySplit (sep : Char) : ∀ s : List Char, joinSep sep (pySplit sep s) = s := by
  intro s
  induction s with
  | nil => rfl
  | cons c rest ih =>
    by_cases hc : c = sep
    · rw [hc, pySplit_cons_sep]
      cases hps : pySplit sep rest with
      | nil => exact absurd hps (pySplit_ne_nil sep rest)
      | cons t ts =>
        rw [hps] at ih
        rw [joinSep_cons_cons]
        simp [ih, hc]
    · cases hps : pySplit sep rest with
      | nil => exact absurd hps (pySplit_ne_nil sep rest)
      | cons t ts =>
        rw [pySplit_cons_ne sep c rest hc t ts hps]
        rw [hps] at ih
        cases ts with
        | nil =>
          have ht : t = rest := ih
          show c :: t = c :: rest
          rw [ht]
        | cons u us =>
          rw [joinSep_cons_cons] at ih ⊢
          simp only [List.cons_append]
          rw [ih]

lemma pySplit_append_sep (sep : Char) (t : List Char) :
    ∀ s : List Char, pySplit sep (s ++ (sep :: t)) = pySplit sep s ++ pySplit sep t := by
  intro s
  induction s with
  | nil => simp [pySplit_cons_sep, pySplit]
  | cons c rest ih =>
    by_cases hc : c = sep
    · rw [hc]
      have e : (sep :: rest) ++ (sep :: t) = sep :: (rest ++ (sep :: t)) := rfl
      rw [e, pySplit_cons_sep, pySplit_cons_sep, ih]
      rfl
    · cases hps : pySplit sep rest with
      | nil => exact absurd hps (pySplit_ne_nil sep rest)
      | cons u us =>
        rw [hps] at ih
        simp only [List.cons_append] at ih
        have e : (c :: rest) ++ (sep :: t) = c :: (rest ++ (sep :: t)) := rfl
        rw [e, pySplit_cons_ne sep c _ hc _ _ ih,
          pySplit_cons_ne sep c rest hc u us hps]
        simp

lemma joinSep_dropLast_length (sep : Char) :
    ∀ l : List (List Char), joinSep sep l ≠ [] →
      (joinSep sep l.dropLast).length < (joinSep sep l).length := by
  intro l
  induction l with
  | nil => intro h; exact absurd rfl h
  | cons x tail ih =>
    intro h
    cases tail with
    | nil =>
      simp only [List.dropLast_single, joinSep] at h ⊢
      exact List.length_pos.mpr h
    | cons y ys =>
      cases ys with
      | nil =>
        simp [joinSep, List.length_append]
      | cons z zs =>
        have hne : joinSep sep (y :: z :: zs) ≠ [] := by
          rw [joinSep_cons_cons]
          simp
        have ihh := ih hne
        have e : (y :: z :: zs).dropLast = y :: (z :: zs).dropLast := rfl
        have e2 : (x :: y :: z :: zs).dropLast = x :: (y :: z :: zs).dropLast := rfl
        rw [e2, e, joinSep_cons_cons, joinSep_cons_cons, ← e]
        simp only [List.length_append, List.length_cons]
        omega

lemma baseRunNameL_append_av (r : List Char) :
    baseRunNameL (r ++ (("_av").data)) = joinSep '_' ((pySplit '_' r).dropLast) := by
  have h : (("_av").data) = '_' :: (("av").data) := rfl
  rw [baseRunNameL, h, pySplit_append_sep]
  have h2 : pySplit '_' (("av").data) = [(("av").data)] := by decide
  rw [h2, List.dropLast_concat]

/-- C10: the summary run name `run_name + "_av"` has a base run name strictly
shorter than `run_name` (hence never equal to it), so a previously published
summary run is never folded into a later aggregation's run family. -/
theorem summary_name_not_own_family (r : String) (h : r ≠ ("")) :
    (baseRunName (r ++ ("_av"))).length < r.length ∧ baseRunName (r ++ ("_av")) ≠ r := by
  have hdata : r.data ≠ [] := by
    intro he
    apply h
    cases r
    simp only at he
    rw [he]
  have hne : joinSep '_' (pySplit '_' r.data) ≠ [] := by
    rw [joinSep_pySplit]
    exact hdata
  have hlt := joinSep_dropLast_length '_' (pySplit '_' r.data) hne
  rw [joinSep_pySplit] at hlt
  have hb : (baseRunName (r ++ ("_av"))).length < r.length := by
    show (baseRunNameL (r ++ ("_av")).data).length < r.length
    have hap : (r ++ ("_av")).data = r.data ++ (("_av").data) := rfl
    rw [hap, baseRunNameL_append_av]
    exact hlt
  refine ⟨hb, fun he => ?_⟩
  have := congrArg String.length he
  omega

/-- Witness for C10 at the concrete run name "my_run". -/
theorem summary_name_not_own_family_witness :
    (baseRunName (("my_run") ++ ("_av"))).length < ("my_run").length ∧
      baseRunName (("my_run") ++ ("_av")) ≠ ("my_run") :=
  summary_name_not_own_family ("my_run") (by decide)

lemma loadMetricsGo_fst (cfg : String) :
    ∀ (runs : List RunData) (ms : List MetricRecord) (mn : Option String),
      (loadMetricsGo cfg runs ms mn).1 =
        ms ++ (runs.filter (fun r => baseRunName r.runName == cfg)).map RunData.metrics := by
  intro runs
  induction runs with
  | nil => intro ms mn; simp [loadMetricsGo]
  | cons r rest ih =>
    intro ms mn
    by_cases h : baseRunName r.runName = cfg
    · simp [loadMetricsGo, h, ih, List.filter_cons]
    · simp [loadMetricsGo, h, ih, List.filter_cons]

/-- C5: the base run name drops the two trailing `_`-separated tokens
("exp1_b_3" gives "exp1", "my_run_b_0" gives "my_run"), and `load_metrics`
keeps a run's metrics exactly when its base run name equals the configured
run name by string equality — a run whose base is "exp1" is not kept for the
configured name "exp" even though "exp" is a prefix of it. -/
theorem base_name_exact_match :
    baseRunName ("exp1_b_3") = ("exp1") ∧
    baseRunName ("my_run_b_0") = ("my_run") ∧
    (∀ (cfg : String) (runs : List RunData),
      (load_metrics cfg runs).1 =
        (runs.filter (fun r => baseRunName r.runName == cfg)).map RunData.metrics) ∧
    (load_metrics ("exp") [⟨("exp1_b_0"), none, [(("test_a"), 1)]⟩]).1 = [] ∧
    (load_metrics ("exp") [⟨("exp_b_0"), none, [(("test_a"), 1)]⟩]).1 =
      [[(("test_a"), 1)]] := by
  refine ⟨by decide, by decide, ?_, by decide, by decide⟩
  intro cfg runs
  exact loadMetricsGo_fst cfg runs [] none

lemma loadMetricsGo_no_match (cfg : String) :
    ∀ (runs : List RunData) (ms : List MetricRecord) (mn : Option String),
      (∀ r ∈ runs, baseRunName r.runName ≠ cfg) →
      loadMetricsGo cfg runs ms mn = (ms, mn) := by
  intro runs
  induction runs with
  | nil => intro ms mn _; rfl
  | cons r rest ih =>
    intro ms mn h
    have hr := h r (List.mem_cons_self r rest)
    simp only [loadMetricsGo, if_neg hr]
    exact ih ms mn (fun x hx => h x (List.mem_cons_of_mem r hx))

/-- C2: when no run's base name equals the configured run name, the run
family is empty, `aggregate_metrics` raises at `metrics[0]` (the exception
the design calls `NoMatchingRuns`), and `average_metrics` therefore raises
before computing any statistic or publishing anything: no summary record —
in particular none with statistics of an empty value sequence — is
produced. -/
theorem no_matching_runs_error (cfg : String) (runs : List RunData)
    (h : ∀ r ∈ runs, baseRunName r.runName ≠ cfg) :
    load_metrics cfg runs = ([], none) ∧
    average_metrics cfg runs = Except.error PyError.indexError := by
  have hl : load_metrics cfg runs = ([], none) := loadMetricsGo_no_match cfg runs [] none h
  refine ⟨hl, ?_⟩
  simp [average_metrics, hl, aggregate_metrics]

/-- Witness for C2: a single run from a different family. -/
theorem no_matching_runs_error_witness :
    average_metrics ("exp") [⟨("other_b_0"), none, [(("test_a"), 1)]⟩] =
      Except.error PyError.indexError :=
  (no_matching_runs_error ("exp") [⟨("other_b_0"), none, [(("test_a"), 1)]⟩]
    (by decide)).2

lemma wait_jobs_some (A : Finset String) (B : ℕ → Finset String) :
    ∀ (n i j : ℕ), wait_jobs A B n i = some j →
      i ≤ j ∧ A ∩ B j = ∅ ∧ ∀ m, i ≤ m → m < j → A ∩ B m ≠ ∅ := by
  intro n
  induction n with
  | zero => intro i j h; simp [wait_jobs] at h
  | succ n ih =>
    intro i j h
    by_cases hc : A ∩ B i = ∅
    · simp only [wait_jobs, if_pos hc, Option.some.injEq] at h
      subst h
      exact ⟨le_refl i, hc, fun m h1 h2 => absurd h1 (by omega)⟩
    · simp only [wait_jobs, if_neg hc] at h
      obtain ⟨h1, h2, h3⟩ := ih (i + 1) j h
      refine ⟨by omega, h2, fun m hm1 hm2 => ?_⟩
      rcases Nat.eq_or_lt_of_le hm1 with he | hlt
      · rw [← he]; exact hc
      · exact h3 m hlt hm2

lemma wait_jobs_reaches (A : Finset String) (B : ℕ → Finset String) :
    ∀ (n i : ℕ), (∃ j, i ≤ j ∧ j < i + n ∧ A ∩ B j = ∅) →
      (wait_jobs A B n i).isSome := by
  intro n
  induction n with
  | zero =>
    intro i h
    obtain ⟨j, h1, h2, _⟩ := h
    omega
  | succ n ih =>
    intro i h
    obtain ⟨j, h1, h2, h3⟩ := h
    by_cases hc : A ∩ B i = ∅
    · simp [wait_jobs, hc]
    · have hij : i ≠ j := fun he => hc (he ▸ h3)
      simp only [wait_jobs, if_neg hc]
      exact ih (i + 1) ⟨j, by omega, by omega, h3⟩

/-- C1: the polling loop of `wait_jobs` terminates exactly when some `bjobs`
query yields an active set with empty intersection with the tracked handles;
when it stops after query `j`, that intersection is empty, and at every
earlier query the intersection was non-empty (so the loop slept and
repeated), i.e. it never exits while handles are still active. -/
theorem wait_jobs_poll_spec (A : Finset String) (B : ℕ → Finset String) :
    (∀ (n j : ℕ), wait_jobs A B n 0 = some j →
       A ∩ B j = ∅ ∧ ∀ m, m < j → A ∩ B m ≠ ∅) ∧
    ((∃ n, (wait_jobs A B n 0).isSome) ↔ ∃ i, A ∩ B i = ∅) := by
  refine ⟨fun n j h => ?_, ?_, ?_⟩
  · obtain ⟨-, h2, h3⟩ := wait_jobs_some A B n 0 j h
    exact ⟨h2, fun m hm => h3 m (Nat.zero_le m) hm⟩
  · rintro ⟨n, hn⟩
    obtain ⟨j, hj⟩ := Option.isSome_iff_exists.mp hn
    exact ⟨j, (wait_jobs_some A B n 0 j hj).2.1⟩
  · rintro ⟨i, hi⟩
    exact ⟨i + 1, wait_jobs_reaches A B (i + 1) 0 ⟨i, Nat.zero_le i, by omega, hi⟩⟩

/-- Witness for C1: one tracked handle, active on query 0 and gone on
query 1; the loop stops at query 1 having refused to stop at query 0. -/
theorem wait_jobs_poll_spec_witness :
    ({("j1")} : Finset String) ∩ (fun i => if i = 0 then ({("j1")} : Finset String) else ∅) 1 = ∅ ∧
    ({("j1")} : Finset String) ∩ (fun i => if i = 0 then ({("j1")} : Finset String) else ∅) 0 ≠ ∅ := by
  have h := (wait_jobs_poll_spec ({("j1")} : Finset String)
    (fun i => if i = 0 then ({("j1")} : Finset String) else ∅)).1 2 1 (by decide)
  exact ⟨h.1, h.2 0 (by omega)⟩

lemma submit_bundle_eq (handleOf : ℕ → String) :
    ∀ N, submit_bundle N handleOf = (List.range N, (Finset.range N).image handleOf) := by
  intro N
  induction N with
  | zero => simp [submit_bundle]
  | succ n ih =>
    have e : submit_bundle (n + 1) handleOf =
        ((submit_bundle n handleOf).1 ++ [n],
          insert (handleOf n) (submit_bundle n handleOf).2) := by
      rw [submit_bundle, submit_bundle, List.range_succ, List.foldl_append]
      rfl
    rw [e, ih, List.range_succ, Finset.range_succ, Finset.image_insert]

/-- C6: submitting a bundle of size `N` issues exactly the submission calls
with bundle indices `0..N-1` in order, the tracked handle set is the image
of those indices under the scheduler's handle assignment, and when the `N`
responses carry pairwise distinct handles the set has exactly `N`
elements. -/
theorem submit_bundle_spec (N : ℕ) (handleOf : ℕ → String)
    (hinj : ∀ i ∈ Finset.range N, ∀ j ∈ Finset.range N, handleOf i = handleOf j → i = j) :
    (submit_bundle N handleOf).1 = List.range N ∧
    (submit_bundle N handleOf).2 = (Finset.range N).image handleOf ∧
    (submit_bundle N handleOf).2.card = N := by
  have he := submit_bundle_eq handleOf N
  refine ⟨by rw [he], by rw [he], ?_⟩
  rw [he]
  have hcard : ((Finset.range N).image handleOf).card = (Finset.range N).card :=
    Finset.card_image_of_injOn
      (fun a ha b hb hab => hinj a (Finset.mem_coe.mp ha) b (Finset.mem_coe.mp hb) hab)
  rw [hcard, Finset.card_range]

/-- Witness for C6 at bundle size 2 with distinct scheduler handles. -/
theorem submit_bundle_spec_witness :
    (submit_bundle 2 (fun i => if i = 0 then ("a") else ("b"))).1 = [0, 1] ∧
    (submit_bundle 2 (fun i => if i = 0 then ("a") else ("b"))).2.card = 2 := by
  have h := submit_bundle_spec 2 (fun i => if i = 0 then ("a") else ("b")) (by decide)
  exact ⟨by rw [h.1]; rfl, h.2.2⟩

/-- C7: a `dataset_type` that is none of the five configured names makes
`get_lsf_command` raise `RuntimeError('Unknown dataset_type')` (the design's
`ConfigurationError`), and `submit_job` therefore fails with that error with
an empty external-call trace: the scheduler is never invoked, so no job is
queued. -/
theorem unknown_dataset_fails_fast (e : Env) (home trainer cfgRun run_name : String)
    (respond : String → SchedResponse) (dt : String) (b : ℕ)
    (h : dt ∉ [("discoman_v10"), ("discoman_debug"), ("kitti_4/6"), ("tum"), ("tum_debug")]) :
    get_lsf_command e home trainer dt run_name =
      Except.error (PyError.runtimeError (("Unknown dataset_type"))) ∧
    submit_job_traced e home trainer cfgRun respond dt b =
      (Except.error (PyError.runtimeError (("Unknown dataset_type"))), []) := by
  simp only [List.mem_cons, List.not_mem_nil, or_false, not_or] at h
  obtain ⟨h1, h2, h3, h4, h5⟩ := h
  have hroot : get_dataset_root e dt =
      Except.error (PyError.runtimeError (("Unknown dataset_type"))) := by
    simp [get_dataset_root, h1, h2, h3, h4, h5]
  exact ⟨by simp [get_lsf_command, hroot],
    by simp [submit_job_traced, get_lsf_command, hroot]⟩

/-- Witness for C7 with the unknown dataset type "euroc". -/
theorem unknown_dataset_fails_fast_witness :
    submit_job_traced ⟨("p1"), ("p2"), ("p3")⟩ ("h") ("t.py") ("exp")
      (fun _ => SchedResponse.timeout) ("euroc") 0 =
      (Except.error (PyError.runtimeError (("Unknown dataset_type"))), []) :=
  (unknown_dataset_fails_fast ⟨("p1"), ("p2"), ("p3")⟩ ("h") ("t.py") ("exp") ("x")
    (fun _ => SchedResponse.timeout) ("euroc") 0 (by decide)).2

/-- C9: when `average_metrics` raises, the `try/except` in `submit_bundle`
catches it: provided the submission phase succeeded, the per-dataset
pipeline still returns normally, with no summary record for that dataset;
and each dataset's dispatch entry depends only on that dataset's own inputs,
so changing (in particular: failing) one dataset leaves every sibling
dataset's result unchanged. -/
theorem agg_failure_isolated (cfg : String) (inp : PipelineInput) (err : PyError)
    (hagg : average_metrics cfg inp.runs = Except.error err) :
    (∀ hs, submitAll inp.bundleSize inp.submitRes = Except.ok hs →
       run_pipeline cfg inp = Except.ok (hs, none)) ∧
    (∀ (datasets : List String) (w w2 : String → PipelineInput) (d : String),
       (∀ d2, d2 ≠ d → w d2 = w2 d2) →
       ∀ d2 ∈ datasets, d2 ≠ d →
         lookupQ d2 (dispatch cfg datasets w) = lookupQ d2 (dispatch cfg datasets w2)) := by
  constructor
  · intro hs hsub
    simp [run_pipeline, hsub, hagg]
  · intro datasets w w2 d hw
    induction datasets with
    | nil => intro d2 hmem; exact absurd hmem (List.not_mem_nil d2)
    | cons x rest ih =>
      intro d2 hmem hne
      by_cases hx : x = d2
      · have hxd : x ≠ d := by rw [hx]; exact hne
        simp only [dispatch, List.map_cons, lookupQ, if_pos hx]
        rw [hw x hxd]
      · simp only [dispatch, List.map_cons, lookupQ, if_neg hx]
        rcases List.mem_cons.mp hmem with he | hm
        · exact absurd he.symm hx
        · exact ih d2 hm hne

/-- Witness for C9: a one-job bundle whose aggregation fails (empty run
listing) still returns normally with its handle list and no summary. -/
theorem agg_failure_isolated_witness :
    run_pipeline ("exp") ⟨1, fun _ => Except.ok ("7"), []⟩ =
      Except.ok ([("7")], none) := by
  have h := (agg_failure_isolated ("exp") ⟨1, fun _ => Except.ok ("7"), []⟩
    PyError.indexError (by decide)).1
  exact h [("7")] (by decide)

lemma map_fst_addValue (agg : AggregatedMetrics) (k : String) (v : ℚ) :
    (addValue agg k v).map Prod.fst = agg.map Prod.fst := by
  induction agg with
  | nil => rfl
  | cons kv rest ih =>
    by_cases h : kv.1 = k <;>
      simp only [addValue, List.map_cons, if_pos, if_neg, h] <;>
      simp only [addValue] at ih <;>
      simp [ih]

lemma lookupQ_addValue_self (agg : AggregatedMetrics) (k : String) (v : ℚ) :
    lookupQ k (addValue agg k v) = (lookupQ k agg).map (fun l => l ++ [v]) := by
  induction agg with
  | nil => rfl
  | cons kv rest ih =>
    by_cases h : kv.1 = k
    · simp [addValue, lookupQ, h]
    · simp only [addValue, List.map_cons, if_neg h, lookupQ]
      simpa [addValue] using ih

lemma lookupQ_addValue_ne (agg : AggregatedMetrics) (k k2 : String) (v : ℚ)
    (h : k2 ≠ k) : lookupQ k2 (addValue agg k v) = lookupQ k2 agg := by
  induction agg with
  | nil => rfl
  | cons kv rest ih =>
    by_cases hk : kv.1 = k
    · have hne : kv.1 ≠ k2 := by rw [hk]; exact fun he => h he.symm
      simp only [addValue, List.map_cons, if_pos hk, lookupQ, if_neg hne]
      simpa [addValue] using ih
    · simp only [addValue, List.map_cons, if_neg hk, lookupQ]
      by_cases hv : kv.1 = k2
      · rw [if_pos hv, if_pos hv]
      · rw [if_neg hv, if_neg hv]
        simpa [addValue] using ih

lemma lookupQ_procRecord (k : String) :
    ∀ (rec0 : MetricRecord) (agg : AggregatedMetrics),
      lookupQ k (procRecord agg rec0) =
        (lookupQ k agg).map (fun l => l ++ recordValues k rec0) := by
  intro rec0
  induction rec0 with
  | nil =>
    intro agg
    simp only [procRecord, List.foldl_nil, recordValues, List.filterMap_nil]
    cases lookupQ k agg <;> simp
  | cons kv rest ih =>
    intro agg
    have e : procRecord agg (kv :: rest) = procRecord (addValue agg kv.1 kv.2) rest := rfl
    rw [e, ih]
    by_cases h : kv.1 = k
    · rw [h, lookupQ_addValue_self]
      have hrv : recordValues k (kv :: rest) = kv.2 :: recordValues k rest := by
        simp [recordValues, h]
      rw [hrv]
      cases lookupQ k agg <;> simp
    · rw [lookupQ_addValue_ne agg kv.1 k kv.2 (fun he => h he.symm)]
      have hrv : recordValues k (kv :: rest) = recordValues k rest := by
        simp [recordValues, h]
      rw [hrv]

lemma lookupQ_foldl (k : String) :
    ∀ (ms : List MetricRecord) (agg : AggregatedMetrics),
      lookupQ k (ms.foldl procRecord agg) =
        (lookupQ k agg).map (fun l => l ++ concatValues k ms) := by
  intro ms
  induction ms with
  | nil =>
    intro agg
    simp only [List.foldl_nil, concatValues]
    cases lookupQ k agg <;> simp
  | cons r rs ih =>
    intro agg
    have e : (r :: rs).foldl procRecord agg = rs.foldl procRecord (procRecord agg r) := rfl
    rw [e, ih, lookupQ_procRecord]
    have e2 : concatValues k (r :: rs) = recordValues k r ++ concatValues k rs := rfl
    rw [e2]
    cases lookupQ k agg <;> simp

lemma map_fst_procRecord :
    ∀ (rec0 : MetricRecord) (agg : AggregatedMetrics),
      (procRecord agg rec0).map Prod.fst = agg.map Prod.fst := by
  intro rec0
  induction rec0 with
  | nil => intro agg; rfl
  | cons kv rest ih =>
    intro agg
    have e : procRecord agg (kv :: rest) = procRecord (addValue agg kv.1 kv.2) rest := rfl
    rw [e, ih, map_fst_addValue]

lemma map_fst_foldl :
    ∀ (ms : List MetricRecord) (agg : AggregatedMetrics),
      ((ms.foldl procRecord agg).map Prod.fst) = agg.map Prod.fst := by
  intro ms
  induction ms with
  | nil => intro agg; rfl
  | cons r rs ih =>
    intro agg
    have e : (r :: rs).foldl procRecord agg = rs.foldl procRecord (procRecord agg r) := rfl
    rw [e, ih, map_fst_procRecord]

lemma map_fst_initAgg (first : MetricRecord) :
    (initAgg first).map Prod.fst = first.map Prod.fst := by
  induction first with
  | nil => rfl
  | cons kv rest ih => simp [initAgg]

lemma lookupQ_initAgg (first : MetricRecord) (k : String) :
    lookupQ k (initAgg first) = (lookupQ k first).map (fun _ => ([] : List ℚ)) := by
  induction first with
  | nil => rfl
  | cons kv rest ih =>
    by_cases h : kv.1 = k
    · simp [initAgg, lookupQ, h]
    · simp only [initAgg, List.map_cons, lookupQ, if_neg h]
      simpa [initAgg] using ih

lemma lookupQ_none_iff {α : Type} (l : List (String × α)) (k : String) :
    lookupQ k l = none ↔ k ∉ l.map Prod.fst := by
  induction l with
  | nil => simp [lookupQ]
  | cons kv rest ih =>
    by_cases h : kv.1 = k
    · simp [lookupQ, h]
    · have h2 : ¬(k = kv.1) := fun he => h he.symm
      simp [lookupQ, h, h2, ih]

lemma recordValues_nil_of_not_mem (k : String) (rec0 : MetricRecord)
    (h : k ∉ rec0.map Prod.fst) : recordValues k rec0 = [] := by
  induction rec0 with
  | nil => rfl
  | cons kv rest ih =>
    simp only [List.map_cons, List.mem_cons, not_or] at h
    have hk : kv.1 ≠ k := fun he => h.1 he.symm
    simp only [recordValues, List.filterMap_cons, if_neg hk]
    simpa [recordValues] using ih h.2

lemma recordValues_nodup (k : String) (rec0 : MetricRecord)
    (h : (rec0.map Prod.fst).Nodup) :
    recordValues k rec0 = (lookupQ k rec0).toList := by
  induction rec0 with
  | nil => rfl
  | cons kv rest ih =>
    simp only [List.map_cons, List.nodup_cons] at h
    obtain ⟨hnm, hnd⟩ := h
    by_cases hk : kv.1 = k
    · have hz : recordValues k rest = [] :=
        recordValues_nil_of_not_mem k rest (hk ▸ hnm)
      simp [recordValues, lookupQ, hk, hz] at hz ⊢
      exact hz
    · simp [recordValues, lookupQ, hk]
      simpa [recordValues] using ih hnd

lemma concatValues_eq_filterMap (k : String) :
    ∀ (ms : List MetricRecord), (∀ r ∈ ms, (r.map Prod.fst).Nodup) →
      concatValues k ms = ms.filterMap (fun r => lookupQ k r) := by
  intro ms
  induction ms with
  | nil => intro _; rfl
  | cons r rs ih =>
    intro h
    have hr := recordValues_nodup k r (h r (List.mem_cons_self r rs))
    have e : concatValues k (r :: rs) = recordValues k r ++ concatValues k rs := rfl
    rw [e, hr, ih (fun x hx => h x (List.mem_cons_of_mem r hx))]
    cases hl : lookupQ k r <;> simp [List.filterMap_cons, hl]

/-- C3: on a non-empty record list of well-formed (duplicate-free) metric
dicts, `aggregate_metrics` succeeds; the resulting key set is exactly the
first record's key set; each such key maps to the values it has in every
record that contains it, in record order; and any key absent from the first
record — even if present in later records — is absent from the result. -/
theorem aggregate_metrics_first_record_keys (first : MetricRecord)
    (rest : List MetricRecord)
    (hnd : ∀ r ∈ first :: rest, (r.map Prod.fst).Nodup) :
    ∃ A, aggregate_metrics (first :: rest) = Except.ok A ∧
      A.map Prod.fst = first.map Prod.fst ∧
      (∀ k ∈ first.map Prod.fst,
        lookupQ k A = some ((first :: rest).filterMap (fun r => lookupQ k r))) ∧
      (∀ k, k ∉ first.map Prod.fst → lookupQ k A = none) := by
  refine ⟨(first :: rest).foldl procRecord (initAgg first), rfl, ?_, ?_, ?_⟩
  · rw [map_fst_foldl, map_fst_initAgg]
  · intro k hk
    rw [lookupQ_foldl, lookupQ_initAgg]
    obtain ⟨v, hv⟩ : ∃ v, lookupQ k first = some v := by
      cases hl : lookupQ k first with
      | none => exact absurd ((lookupQ_none_iff first k).mp hl) (not_not_intro hk)
      | some v => exact ⟨v, rfl⟩
    rw [hv, concatValues_eq_filterMap k (first :: rest) hnd]
    simp
  · intro k hk
    rw [lookupQ_foldl, lookupQ_initAgg, (lookupQ_none_iff first k).mpr hk]
    rfl

/-- Witness for C3: two well-formed records; aggregation does not raise. -/
theorem aggregate_metrics_first_record_keys_witness :
    aggregate_metrics [[(("a"), (1 : ℚ)), (("b"), 2)], [(("a"), 3), (("c"), 4)]] ≠
      Except.error PyError.indexError := by
  obtain ⟨A, h1, -, -, -⟩ := aggregate_metrics_first_record_keys
    [(("a"), (1 : ℚ)), (("b"), 2)] [[(("a"), 3), (("c"), 4)]] (by decide)
  rw [h1]
  simp

lemma metrics_mean_cons (k : String) (vs : List ℚ) (t : AggregatedMetrics) :
    metrics_mean ((k, vs) :: t) =
      if containsTest k then ((k ++ ("_mean"), npMean vs)) :: metrics_mean t
      else metrics_mean t := by
  by_cases h : containsTest k <;> simp [metrics_mean, List.filterMap_cons, h]

lemma metrics_var_cons (k : String) (vs : List ℚ) (t : AggregatedMetrics) :
    metrics_var ((k, vs) :: t) =
      if containsTest k then ((k ++ ("_var"), npVar vs)) :: metrics_var t
      else metrics_var t := by
  by_cases h : containsTest k <;> simp [metrics_var, List.filterMap_cons, h]

lemma test_filter_keys (suf : String) (f : List ℚ → ℚ) (k : String) :
    ∀ agg : AggregatedMetrics, k ∈ agg.map Prod.fst →
      (containsTest k = true ↔
        (k ++ suf) ∈ (agg.filterMap (fun kv =>
          if containsTest kv.1 then some (kv.1 ++ suf, f kv.2) else none)).map Prod.fst) := by
  have hmem : ∀ agg : AggregatedMetrics, ∀ key : String,
      (key ∈ (agg.filterMap (fun kv =>
          if containsTest kv.1 then some (kv.1 ++ suf, f kv.2) else none)).map Prod.fst) ↔
        ∃ kv ∈ agg, containsTest kv.1 = true ∧ key = kv.1 ++ suf := by
    intro agg key
    induction agg with
    | nil => simp
    | cons kv rest ih =>
      by_cases h : containsTest kv.1 <;>
        simp [List.filterMap_cons, h, ih]
  intro agg hk
  obtain ⟨kv, hkv, hfst⟩ := List.mem_map.mp hk
  constructor
  · intro hct
    exact (hmem agg (k ++ suf)).mpr ⟨kv, hkv, by rw [hfst]; exact hct, by rw [hfst]⟩
  · intro hin
    obtain ⟨kv2, hkv2, hct2, heq⟩ := (hmem agg (k ++ suf)).mp hin
    have hd : k.data ++ suf.data = kv2.1.data ++ suf.data := congrArg String.data heq
    have hfst2 : kv2.1 = k := String.ext (List.append_cancel_right hd).symm
    rw [← hfst2]
    exact hct2

/-- C4: the summary's mean and variance dicts have an entry `k_mean` /
`k_var` exactly for the aggregated keys `k` containing the substring "test";
on the three records with test_a values 1,2,3 and test_b values 10,20,30 the
published summary carries test_a_mean = 2, test_a_var = 2/3 (the population
variance, about 0.667), test_b_mean = 20, test_b_var = 200/3 (about 66.67);
and a key without "test", such as train_loss, produces no summary entry. -/
theorem average_metrics_test_filter :
    (∀ (agg : AggregatedMetrics) (k : String), k ∈ agg.map Prod.fst →
      ((containsTest k = true ↔ (k ++ ("_mean")) ∈ (metrics_mean agg).map Prod.fst) ∧
       (containsTest k = true ↔ (k ++ ("_var")) ∈ (metrics_var agg).map Prod.fst))) ∧
    average_metrics ("exp")
      [⟨("exp_b_0"), none, [(("test_a"), 1), (("test_b"), 10)]⟩,
       ⟨("exp_b_1"), none, [(("test_a"), 2), (("test_b"), 20)]⟩,
       ⟨("exp_b_2"), none, [(("test_a"), 3), (("test_b"), 30)]⟩] =
      Except.ok ⟨("exp_av"), some ("Unknown"), 3,
        [(("test_a_mean"), 2), (("test_b_mean"), 20)],
        [(("test_a_var"), 2 / 3), (("test_b_var"), 200 / 3)]⟩ ∧
    (metrics_mean [(("test_a"), [1]), (("train_loss"), [5])]).map Prod.fst =
      [("test_a_mean")] := by
  have h1 : npMean [(1 : ℚ), 2, 3] = 2 := by norm_num [npMean]
  have h2 : npMean [(10 : ℚ), 20, 30] = 20 := by norm_num [npMean]
  have h3 : npVar [(1 : ℚ), 2, 3] = 2 / 3 := by
    simp only [npVar, h1, List.map_cons, List.map_nil, List.sum_cons, List.sum_nil,
      List.length_cons, List.length_nil]
    norm_num
  have h4 : npVar [(10 : ℚ), 20, 30] = 200 / 3 := by
    simp only [npVar, h2, List.map_cons, List.map_nil, List.sum_cons, List.sum_nil,
      List.length_cons, List.length_nil]
    norm_num
  refine ⟨?_, ?_, ?_⟩
  · intro agg k hk
    exact ⟨test_filter_keys ("_mean") npMean k agg hk,
      test_filter_keys ("_var") npVar k agg hk⟩
  · have hload : load_metrics ("exp")
        [⟨("exp_b_0"), none, [(("test_a"), 1), (("test_b"), 10)]⟩,
         ⟨("exp_b_1"), none, [(("test_a"), 2), (("test_b"), 20)]⟩,
         ⟨("exp_b_2"), none, [(("test_a"), 3), (("test_b"), 30)]⟩] =
        ([[(("test_a"), 1), (("test_b"), 10)],
          [(("test_a"), 2), (("test_b"), 20)],
          [(("test_a"), 3), (("test_b"), 30)]], some ("Unknown")) := by decide
    have hagg : aggregate_metrics
        [[(("test_a"), 1), (("test_b"), 10)],
         [(("test_a"), 2), (("test_b"), 20)],
         [(("test_a"), 3), (("test_b"), 30)]] =
        Except.ok [(("test_a"), [(1 : ℚ), 2, 3]), (("test_b"), [10, 20, 30])] := by decide
    have hm : metrics_mean [(("test_a"), [(1 : ℚ), 2, 3]), (("test_b"), [10, 20, 30])] =
        [(("test_a_mean"), 2), (("test_b_mean"), 20)] := by
      rw [metrics_mean_cons, if_pos (by decide : containsTest ("test_a") = true),
        metrics_mean_cons, if_pos (by decide : containsTest ("test_b") = true), h1, h2]
      decide
    have hv : metrics_var [(("test_a"), [(1 : ℚ), 2, 3]), (("test_b"), [10, 20, 30])] =
        [(("test_a_var"), 2 / 3), (("test_b_var"), 200 / 3)] := by
      rw [metrics_var_cons, if_pos (by decide : containsTest ("test_a") = true),
        metrics_var_cons, if_pos (by decide : containsTest ("test_b") = true), h3, h4]
      have e1 : ("test_a") ++ ("_var") = ("test_a_var") := String.ext (by decide)
      have e2 : ("test_b") ++ ("_var") = ("test_b_var") := String.ext (by decide)
      rw [e1, e2]
      rfl
    simp only [average_metrics, hload, hagg, hm, hv]
    have e3 : ("exp") ++ ("_av") = ("exp_av") := String.ext (by decide)
    rw [e3]
    rfl
  · rw [metrics_mean_cons, if_pos (by decide : containsTest ("test_a") = true),
      metrics_mean_cons, if_neg (by decide : ¬containsTest ("train_loss") = true)]
    decide

/-- Witness for C4's key-filter characterization at a concrete key. -/
theorem average_metrics_test_filter_witness :
    containsTest ("test_a") = true ↔
      (("test_a") ++ ("_mean")) ∈ (metrics_mean [(("test_a"), [(1 : ℚ), 2, 3])]).map Prod.fst :=
  ((average_metrics_test_filter).1 [(("test_a"), [(1 : ℚ), 2, 3])] ("test_a") (by decide)).1

lemma pySplit_append_single (sep c : Char) (hc : c ≠ sep) :
    ∀ s : List Char, pySplit sep (s ++ [c]) = appendLast [c] (pySplit sep s) := by
  intro s
  induction s with
  | nil =>
    simp only [List.nil_append]
    rw [pySplit_cons_ne sep c [] hc [] [] rfl]
    rfl
  | cons d rest ih =>
    by_cases hd : d = sep
    · rw [hd]
      have e : (sep :: rest) ++ [c] = sep :: (rest ++ [c]) := rfl
      rw [e, pySplit_cons_sep, pySplit_cons_sep, ih]
      cases hps : pySplit sep rest with
      | nil => exact absurd hps (pySplit_ne_nil sep rest)
      | cons t ts => rfl
    · cases hps : pySplit sep rest with
      | nil => exact absurd hps (pySplit_ne_nil sep rest)
      | cons u us =>
        have e : (d :: rest) ++ [c] = d :: (rest ++ [c]) := rfl
        rw [e]
        cases us with
        | nil =>
          have h2 : pySplit sep (rest ++ [c]) = [u ++ [c]] := by rw [ih, hps]; rfl
          rw [pySplit_cons_ne sep d _ hd _ _ h2,
            pySplit_cons_ne sep d rest hd u [] hps]
          rfl
        | cons u2 us2 =>
          have h2 : pySplit sep (rest ++ [c]) = u :: appendLast [c] (u2 :: us2) := by
            rw [ih, hps]; rfl
          rw [pySplit_cons_ne sep d _ hd _ _ h2,
            pySplit_cons_ne sep d rest hd u (u2 :: us2) hps]
          rfl

lemma reprByte_plain (c : Char) (h : PlainChar c) : reprByte sq c = [c] := by
  obtain ⟨h1, h2, h3, h4⟩ := h
  have t9 : c ≠ Char.ofNat 9 := by intro he; rw [he] at h1; revert h1; decide
  have t10 : c ≠ Char.ofNat 10 := by intro he; rw [he] at h1; revert h1; decide
  have t13 : c ≠ Char.ofNat 13 := by intro he; rw [he] at h1; revert h1; decide
  simp only [reprByte, if_neg t9, if_neg t10, if_neg t13, if_neg h4, if_neg h3,
    if_pos (And.intro h1 h2)]

lemma flatMap_reprByte_plain :
    ∀ out : List Char, (∀ c ∈ out, PlainChar c) → out.flatMap (reprByte sq) = out := by
  intro out
  induction out with
  | nil => intro _; rfl
  | cons c rest ih =>
    intro h
    have hc := reprByte_plain c (h c (List.mem_cons_self c rest))
    have hr := ih (fun x hx => h x (List.mem_cons_of_mem c hx))
    simp [List.flatMap_cons, hc, hr]

lemma strOfBytes_plain (out : List Char) (h : ∀ c ∈ out, PlainChar c) :
    strOfBytes out = 'b' :: (sq :: (out ++ [sq])) := by
  have hsq : sq ∉ out := fun hm => (h sq hm).2.2.1 rfl
  rw [strOfBytes, if_neg (fun hand => hsq hand.1), flatMap_reprByte_plain out h]

lemma drop_one_dropLast_append_single (l : List Char) (x : Char) :
    ((l ++ [x]).drop 1).dropLast = l.drop 1 := by
  cases l with
  | nil => rfl
  | cons a t =>
    show (t ++ [x]).dropLast = t
    exact List.dropLast_concat

/-- C8 counterexample: on the two-token scheduler stdout `b"Job <123>"`, the
code returns the handle "123>", not the second whitespace-delimited token
"<123>" with its first and last characters trimmed (which would be "123"),
and it raises no parse error: `submit_job` parses `str(outs)`, so the
trailing repr quote is trimmed instead of the token's last character. -/
theorem submit_job_parse_counterexample :
    parse_job_id (("Job <123>").data) = Except.ok (("123>").data) ∧
    (pySplit ' ' (("Job <123>").data))[1]? = some (("<123>").data) ∧
    (((("<123>").data).drop 1).dropLast) = ("123").data ∧
    ¬ (("123>").data = ("123").data) := by decide

/-- C8 amended: `submit_job` parses the repr `str(outs)` of the raw stdout
bytes.  For stdout made of plain printable characters: with at least three
space-delimited tokens the handle is the second token with first and last
characters trimmed; with exactly two tokens the handle is the second token
with only its first character dropped (the repr quote is trimmed instead of
its last character); with fewer than two tokens submission fails with
`IndexError` (the design's `SubmissionParseError`); and a submission that is
not acknowledged within the timeout fails with `TimeoutExpired` (the
design's `SubmissionTimeout`). -/
theorem submit_job_parse_amended (out : List Char) (hplain : ∀ c ∈ out, PlainChar c) :
    (∀ t0, pySplit ' ' out = [t0] →
       parse_job_id out = Except.error PyError.indexError) ∧
    (∀ t0 t1, pySplit ' ' out = [t0, t1] →
       parse_job_id out = Except.ok (t1.drop 1)) ∧
    (∀ t0 t1 t2 ts, pySplit ' ' out = t0 :: (t1 :: (t2 :: ts)) →
       parse_job_id out = Except.ok ((t1.drop 1).dropLast)) ∧
    submit_response SchedResponse.timeout = Except.error PyError.timeoutExpired := by
  have hsp : strOfBytes out = 'b' :: (sq :: (out ++ [sq])) := strOfBytes_plain out hplain
  have hsq : (sq : Char) ≠ ' ' := by decide
  have hb : ('b' : Char) ≠ ' ' := by decide
  have hax := pySplit_append_single ' ' sq hsq out
  refine ⟨?_, ?_, ?_, rfl⟩
  · intro t0 hps
    have h2 : pySplit ' ' (sq :: (out ++ [sq])) = (sq :: (t0 ++ [sq])) :: [] :=
      pySplit_cons_ne ' ' sq (out ++ [sq]) hsq (t0 ++ [sq]) [] (by rw [hax, hps]; rfl)
    have h3 : pySplit ' ' ('b' :: (sq :: (out ++ [sq]))) =
        ('b' :: (sq :: (t0 ++ [sq]))) :: [] :=
      pySplit_cons_ne ' ' 'b' _ hb _ _ h2
    simp only [parse_job_id, hsp, h3]
    rfl
  · intro t0 t1 hps
    have h2 : pySplit ' ' (sq :: (out ++ [sq])) = (sq :: t0) :: ((t1 ++ [sq]) :: []) :=
      pySplit_cons_ne ' ' sq (out ++ [sq]) hsq t0 ((t1 ++ [sq]) :: []) (by rw [hax, hps]; rfl)
    have h3 : pySplit ' ' ('b' :: (sq :: (out ++ [sq]))) =
        ('b' :: (sq :: t0)) :: ((t1 ++ [sq]) :: []) :=
      pySplit_cons_ne ' ' 'b' _ hb _ _ h2
    simp only [parse_job_id, hsp, h3]
    show Except.ok (((t1 ++ [sq]).drop 1).dropLast) = Except.ok (t1.drop 1)
    rw [drop_one_dropLast_append_single]
  · intro t0 t1 t2 ts hps
    have h2 : pySplit ' ' (sq :: (out ++ [sq])) =
        (sq :: t0) :: (t1 :: appendLast [sq] (t2 :: ts)) :=
      pySplit_cons_ne ' ' sq (out ++ [sq]) hsq t0 (t1 :: appendLast [sq] (t2 :: ts))
        (by rw [hax, hps]; rfl)
    have h3 : pySplit ' ' ('b' :: (sq :: (out ++ [sq]))) =
        ('b' :: (sq :: t0)) :: (t1 :: appendLast [sq] (t2 :: ts)) :=
      pySplit_cons_ne ' ' 'b' _ hb _ _ h2
    simp only [parse_job_id, hsp, h3, List.getElem?_cons_succ, List.getElem?_cons_zero]

/-- Witness for the amended C8 on a conforming four-token stdout. -/
theorem submit_job_parse_amended_witness :
    parse_job_id (("Job <123> is submitted").data) = Except.ok (("123").data) := by
  have h := (submit_job_parse_amended (("Job <123> is submitted").data) (by decide)).2.2.1
  rw [h (("Job").data) (("<123>").data) (("is").data) [(("submitted").data)] (by decide)]
  decide

end Leaderboard
